import Mathlib

/-!
Verification of the persistence/consistency layer of the offline inventory
and point-of-sale application (source file `src/unnamed/part_000`).

The application keeps two ledgers:
  * `stockData`  : a list of stock items, keyed by item name;
  * `salesData`  : an append-only (but reversible) list of sale records.

Two storage backends exist.  The fallback backend (localStorage) mutates the
in-memory lists directly; the durable backend (IndexedDB) keeps `stock` in an
object store keyed by `name` and `sales` in an auto-increment keyed store
whose keys are out-of-line (records carry no id field).

Numbers: the JavaScript source computes with IEEE doubles; here quantities are
modelled as `Int` (the source feeds them through `parseInt`) and prices as
`Rat`, which represents every decimal literal of the source exactly.
-/

/-- JavaScript-style whitespace trim on a character list (models `String.prototype.trim`). -/
def trimChars (l : List Char) : List Char :=
  ((l.dropWhile Char.isWhitespace).reverse.dropWhile Char.isWhitespace).reverse

/-- `trim` on strings, mirroring the JS `trim()` calls in the source. -/
def strTrim (s : String) : String := ⟨trimChars s.data⟩

/-- Split a character list at every occurrence of `sep`, keeping empty pieces,
as JS `split(sep)` does. -/
def splitChars (sep : Char) : List Char → List (List Char)
  | [] => [[]]
  | c :: cs =>
    match splitChars sep cs with
    | h :: t => if c == sep then [] :: h :: t else (c :: h) :: t
    | [] => if c == sep then [[], []] else [[c]]

/-- ASCII lower-casing of a character list (models `toLowerCase` on the
ASCII header names the source matches against). -/
def lowerChars (l : List Char) : List Char := l.map Char.toLower

/-- Does `pat` occur at the head of `hay`? -/
def charsHavePre : List Char → List Char → Bool
  | [], _ => true
  | _ :: _, [] => false
  | p :: ps, c :: cs => p == c && charsHavePre ps cs

/-- Substring test on character lists (models JS `String.prototype.includes`). -/
def charsHaveSub (pat : List Char) : List Char → Bool
  | [] => charsHavePre pat []
  | c :: cs => charsHavePre pat (c :: cs) || charsHaveSub pat cs

/-- A stock item as stored in either backend: `{ name, qty, cost, sell }`. -/
structure StockItem where
  name : String
  qty : Int
  cost : Rat
  sell : Rat
  deriving DecidableEq, Repr

/-- A sale record exactly as built by `addSale`:
`{ staff, name, qty, sellPrice, cost, date, revenue, profit }`.
The optional `id?`/`key?` fields model the JS object's absent `id`/`key`
properties, which `updateSalesTable` probes with `sale.id || sale.key || ...`;
`addSale` never sets them. -/
structure SaleRecord where
  staff : String
  name : String
  qty : Int
  sellPrice : Rat
  cost : Rat
  date : Nat
  revenue : Rat
  profit : Rat
  id? : Option Nat := none
  key? : Option Nat := none
  deriving DecidableEq, Repr

/-- In-memory application state used by the fallback (localStorage) backend:
the module-level `stockData` and `salesData` arrays. -/
structure FallbackState where
  stockData : List StockItem
  salesData : List SaleRecord
  deriving DecidableEq, Repr

/-- State of the durable (IndexedDB) backend: `stock` keyed by name,
`sales` as key/value pairs with an auto-increment key generator `nextKey`
(IndexedDB starts its generator at 1 and `clear()` does not reset it). -/
structure IDBState where
  stock : List StockItem
  sales : List (Nat × SaleRecord)
  nextKey : Nat
  deriving DecidableEq, Repr

/-- `stockData.find(i => i.name === name)`: first stock item with the given name. -/
def findStock : List StockItem → String → Option StockItem
  | [], _ => none
  | i :: rest, n => if i.name == n then some i else findStock rest n

/-- Add `delta` to the quantity of the first item with the given name
(`stockData[stockIndex].qty += delta` after `findIndex`); no-op when absent,
mirroring the `if (stockIndex >= 0)` guard in `addSale`/`deleteSale`. -/
def updStockQty : List StockItem → String → Int → List StockItem
  | [], _, _ => []
  | i :: rest, n, d =>
    if i.name == n then { i with qty := i.qty + d } :: rest
    else i :: updStockQty rest n d

/-- The upsert-merge used by `addShipment` and `importCSVData` in fallback mode:
if an item with the same name exists, add the quantity and overwrite the
prices; otherwise push the new item at the end. -/
def upsertStock : List StockItem → StockItem → List StockItem
  | [], it => [it]
  | i :: rest, it =>
    if i.name == it.name then
      { name := i.name, qty := i.qty + it.qty, cost := it.cost, sell := it.sell } :: rest
    else i :: upsertStock rest it

/-- `store.put(item)` on the IndexedDB `stock` store (keyPath `name`):
overwrite the record with that key, or insert it.  On the list model this
replaces the first item with the same name (the keyed store holds at most
one) or appends. -/
def idbPutStock : List StockItem → StockItem → List StockItem
  | [], it => [it]
  | i :: rest, it => if i.name == it.name then it :: rest else i :: idbPutStock rest it

/-- The get-then-merge-then-put upsert of `addShipment` against the
IndexedDB `stock` store (a single get/put pair per transaction). -/
def idbUpsertStock (l : List StockItem) (it : StockItem) : List StockItem :=
  match findStock l it.name with
  | some e => idbPutStock l { name := e.name, qty := e.qty + it.qty, cost := it.cost, sell := it.sell }
  | none => idbPutStock l it

/-- `saleStore.get(key)` on the auto-increment `sales` store. -/
def idbGetSale (sales : List (Nat × SaleRecord)) (k : Nat) : Option SaleRecord :=
  (sales.find? (fun p => p.1 == k)).map (·.2)

/-- Errors surfaced by `addSale` via early-return toasts. -/
inductive SaleError where
  | noItemSelected
  | invalidQty
  | invalidPrice
  | itemNotFound
  | insufficientStock
  deriving DecidableEq, Repr

/-- Errors surfaced by `deleteSale`. -/
inductive UndoError where
  | notFound
  deriving DecidableEq, Repr

/-- The sale record literal built in `addSale`:
revenue and profit are computed and stored at creation time. -/
def mkSaleRecord (staff name : String) (qty : Int) (sellPrice cost : Rat) (date : Nat) :
    SaleRecord :=
  { staff := staff, name := name, qty := qty, sellPrice := sellPrice, cost := cost,
    date := date, revenue := qty * sellPrice, profit := qty * (sellPrice - cost) }

/-- Resolution of the staff field: `value?.trim() || 'Unknown'`. -/
def staffOrUnknown (staffInput : String) : String :=
  if strTrim staffInput = "" then "Unknown" else strTrim staffInput

/-- `addSale` in fallback mode.  Validation (shared with the durable branch):
item selected, `qty > 0`, `sellPrice > 0`, the item exists in stock, and
`item.qty >= qty`.  On success the first matching stock item's quantity is
decremented and the sale record is pushed onto `salesData`. -/
def addSaleF (st : FallbackState) (staffInput name : String) (qty : Int)
    (sellPrice : Rat) (date : Nat) : Except SaleError FallbackState :=
  if name = "" then .error .noItemSelected
  else if qty ≤ 0 then .error .invalidQty
  else if sellPrice ≤ 0 then .error .invalidPrice
  else
    match findStock st.stockData name with
    | none => .error .itemNotFound
    | some item =>
      if item.qty < qty then .error .insufficientStock
      else
        .ok { stockData := updStockQty st.stockData name (-qty),
              salesData := st.salesData ++
                [mkSaleRecord (staffOrUnknown staffInput) name qty sellPrice item.cost date] }

/-- `addSale` in durable mode: same validation (performed against the
in-memory mirror of the stock store), then within one transaction
`stockStore.put` of the decremented item and `saleStore.add` of the record,
which assigns the next auto-increment key.  Returns the assigned key. -/
def addSaleI (st : IDBState) (staffInput name : String) (qty : Int)
    (sellPrice : Rat) (date : Nat) : Except SaleError (Nat × IDBState) :=
  if name = "" then .error .noItemSelected
  else if qty ≤ 0 then .error .invalidQty
  else if sellPrice ≤ 0 then .error .invalidPrice
  else
    match findStock st.stock name with
    | none => .error .itemNotFound
    | some item =>
      if item.qty < qty then .error .insufficientStock
      else
        .ok (st.nextKey,
          { stock := idbPutStock st.stock { item with qty := item.qty - qty },
            sales := st.sales ++
              [(st.nextKey, mkSaleRecord (staffOrUnknown staffInput) name qty sellPrice item.cost date)],
            nextKey := st.nextKey + 1 })

/-- The state `addSale` leaves behind in fallback mode: on any validation
error the function returns early, so the module-level arrays are untouched. -/
def addSaleFRun (st : FallbackState) (staffInput name : String) (qty : Int)
    (sellPrice : Rat) (date : Nat) : FallbackState :=
  match addSaleF st staffInput name qty sellPrice date with
  | .ok st' => st'
  | .error _ => st

/-- The state `addSale` leaves behind in durable mode on a validation error
(the transaction is never opened). -/
def addSaleIRun (st : IDBState) (staffInput name : String) (qty : Int)
    (sellPrice : Rat) (date : Nat) : IDBState :=
  match addSaleI st staffInput name qty sellPrice date with
  | .ok p => p.2
  | .error _ => st

/-- `deleteSale` in fallback mode.  The identifier is a positional index:
`salesData.findIndex((s, i) => i === saleId)` succeeds exactly when
`saleId < salesData.length`; then the matching stock item's quantity is
restored and the record is spliced out. -/
def deleteSaleF (st : FallbackState) (saleId : Nat) : Except UndoError FallbackState :=
  match st.salesData[saleId]? with
  | none => .error .notFound
  | some sale =>
    .ok { stockData := updStockQty st.stockData sale.name sale.qty,
          salesData := st.salesData.eraseIdx saleId }

/-- `deleteSale` in durable mode: `saleStore.get(saleId)`; if absent, the
"Sale not found" path; otherwise restore the stock item (if it still exists)
and `saleStore.delete(saleId)`. -/
def deleteSaleI (st : IDBState) (saleId : Nat) : Except UndoError IDBState :=
  match idbGetSale st.sales saleId with
  | none => .error .notFound
  | some sale =>
    .ok { stock :=
            match findStock st.stock sale.name with
            | some item => idbPutStock st.stock { item with qty := item.qty + sale.qty }
            | none => st.stock,
          sales := st.sales.filter (fun p => p.1 != saleId),
          nextKey := st.nextKey }

/-- Errors surfaced by `addShipment` via early-return toasts; `cancelled`
is the user declining the sell-below-cost `confirm` dialog. -/
inductive ShipmentError where
  | emptyName
  | invalidQty
  | invalidCost
  | invalidSell
  | cancelled
  deriving DecidableEq, Repr

/-- `addShipment` in fallback mode: trim the name, validate
`qty > 0`, `cost > 0`, `sell > 0`, optionally confirm a below-cost selling
price, then merge by name (add quantity, overwrite prices) or push. -/
def addShipmentF (st : FallbackState) (nameInput : String) (qty : Int)
    (cost sell : Rat) (confirmLoss : Bool) : Except ShipmentError FallbackState :=
  let name := strTrim nameInput
  if name = "" then .error .emptyName
  else if qty ≤ 0 then .error .invalidQty
  else if cost ≤ 0 then .error .invalidCost
  else if sell ≤ 0 then .error .invalidSell
  else if sell < cost ∧ ¬confirmLoss then .error .cancelled
  else .ok { st with stockData := upsertStock st.stockData ⟨name, qty, cost, sell⟩ }

/-- `addShipment` in durable mode: identical validation, then
`store.get(name)`, merge or fresh record, `store.put`. -/
def addShipmentI (st : IDBState) (nameInput : String) (qty : Int)
    (cost sell : Rat) (confirmLoss : Bool) : Except ShipmentError IDBState :=
  let name := strTrim nameInput
  if name = "" then .error .emptyName
  else if qty ≤ 0 then .error .invalidQty
  else if cost ≤ 0 then .error .invalidCost
  else if sell ≤ 0 then .error .invalidSell
  else if sell < cost ∧ ¬confirmLoss then .error .cancelled
  else .ok { st with stock := idbUpsertStock st.stock ⟨name, qty, cost, sell⟩ }

/-- A JSON field value as probed by `importJSONData`.  `missing` covers an
absent or falsy field (fails the `!data.stock` test, and makes
`data.sales || []` produce `[]`); `nonList` a present truthy value that is
not an array (fails `Array.isArray`).  A present, truthy non-array `sales`
value would be assigned raw by the fallback branch; that untyped case is
modelled as `[]` and no claim theorem relies on it. -/
inductive JVal (α : Type) where
  | missing
  | nonList
  | arr (l : List α)
  deriving DecidableEq, Repr

/-- The parsed backup document handed to `importJSONData`. -/
structure ImportDoc where
  stock : JVal StockItem
  sales : JVal SaleRecord
  deriving DecidableEq, Repr

/-- The fixed exchange rate constant of the application. -/
def exchangeRate : Int := 2500

/-- The backup document written by `backupData`. -/
structure Backup where
  stock : List StockItem
  sales : List SaleRecord
  exportDate : Nat
  rate : Int
  version : String
  deriving DecidableEq, Repr

/-- `backupData` with the fallback backend active: it snapshots the
module-level `stockData` and `salesData` arrays. -/
def backupDataF (st : FallbackState) (now : Nat) : Backup :=
  { stock := st.stockData, sales := st.salesData,
    exportDate := now, rate := exchangeRate, version := "2.0" }

/-- `backupData` with the durable backend active: `stockData`/`salesData`
mirror `getAll()` of the two stores, so the sales snapshot holds the stored
values without their out-of-line keys. -/
def backupDataI (st : IDBState) (now : Nat) : Backup :=
  { stock := st.stock, sales := st.sales.map (·.2),
    exportDate := now, rate := exchangeRate, version := "2.0" }

/-- JSON-serialising a backup and parsing it back presents its two ledgers
as array-valued fields to `importJSONData`. -/
def docOfBackup (b : Backup) : ImportDoc := { stock := .arr b.stock, sales := .arr b.sales }

/-- Error thrown by `importJSONData`: "Invalid JSON: Missing stock data". -/
inductive ImportError where
  | invalidStock
  deriving DecidableEq, Repr

/-- `importJSONData` in fallback mode: requires an array-shaped `stock`,
then replaces both ledgers wholesale (`stockData = data.stock`,
`salesData = data.sales || []`). -/
def importJSONF (doc : ImportDoc) (_st : FallbackState) : Except ImportError FallbackState :=
  match doc.stock with
  | .arr l =>
    .ok { stockData := l,
          salesData := match doc.sales with | .arr ls => ls | _ => [] }
  | _ => .error .invalidStock

/-- `salesStore.add` of each record in order: fresh auto-increment keys. -/
def addAllSales (st : IDBState) (l : List SaleRecord) : IDBState :=
  l.foldl (fun s r => { s with sales := s.sales ++ [(s.nextKey, r)], nextKey := s.nextKey + 1 }) st

/-- `importJSONData` in durable mode: requires an array-shaped `stock`; then
one transaction clears both stores (`clear()` does not reset the key
generator), `put`s every stock item and `add`s every sale when `sales` is an
array. -/
def importJSONI (doc : ImportDoc) (st : IDBState) : Except ImportError IDBState :=
  match doc.stock with
  | .arr l =>
    let withStock : IDBState := { stock := l.foldl idbPutStock [], sales := [], nextKey := st.nextKey }
    .ok (match doc.sales with
         | .arr ls => addAllSales withStock ls
         | _ => withStock)
  | _ => .error .invalidStock

/-- State left by `importJSONData` in fallback mode (the throw happens before
any assignment, so the ledgers are untouched on error). -/
def importJSONFRun (doc : ImportDoc) (st : FallbackState) : FallbackState :=
  match importJSONF doc st with
  | .ok st' => st'
  | .error _ => st

/-- State left by `importJSONData` in durable mode on a validation error
(the transaction is never opened). -/
def importJSONIRun (doc : ImportDoc) (st : IDBState) : IDBState :=
  match importJSONI doc st with
  | .ok st' => st'
  | .error _ => st

/-- Value of a digit run (most significant first). -/
def digitsToNat (ds : List Char) : Nat :=
  ds.foldl (fun a c => a * 10 + (c.toNat - 48)) 0

/-- Split a leading run of decimal digits from the rest. -/
def takeDigits : List Char → List Char × List Char
  | [] => ([], [])
  | c :: cs =>
    if c.isDigit then
      let p := takeDigits cs
      (c :: p.1, p.2)
    else ([], c :: cs)

/-- Optional leading sign. -/
def parseSign : List Char → Int × List Char
  | '-' :: cs => (-1, cs)
  | '+' :: cs => (1, cs)
  | cs => (1, cs)

/-- JS `parseInt` in base 10 as applied to the trimmed CSV fields: optional
sign, then a leading run of digits; NaN (here `none`) when no digit is
present.  The `0x` hex prefix is not modelled (no claim involves it). -/
def parseIntJS (s : List Char) : Option Int :=
  let cs := trimChars s
  let p := parseSign cs
  let d := takeDigits p.2
  if d.1.isEmpty then none else some (p.1 * (digitsToNat d.1 : Int))

/-- Integer power of ten as a rational. -/
def pow10 : Int → Rat
  | .ofNat n => (10 : Rat) ^ n
  | .negSucc n => 1 / (10 : Rat) ^ (n + 1)

/-- Exponent suffix of a JS float literal (`e`/`E`, optional sign, digits);
a malformed or absent suffix contributes exponent 0, as `parseFloat`
simply stops reading there. -/
def expVal (r : List Char) : Int :=
  match r with
  | 'e' :: rest | 'E' :: rest =>
    let p := parseSign rest
    let d := takeDigits p.2
    if d.1.isEmpty then 0 else p.1 * (digitsToNat d.1 : Int)
  | _ => 0

/-- JS `parseFloat` on the trimmed CSV fields: optional sign, integer part,
optional fractional part, optional exponent; NaN (`none`) when no digit
appears before the parse stops.  Decimals are represented exactly as
rationals; the `Infinity` literal is not modelled (no claim involves it). -/
def parseFloatJS (s : List Char) : Option Rat :=
  let cs := trimChars s
  let p := parseSign cs
  let ip := takeDigits p.2
  match ip.2 with
  | '.' :: r2 =>
    let fp := takeDigits r2
    if ip.1.isEmpty ∧ fp.1.isEmpty then none
    else
      some ((p.1 : Rat) *
        ((digitsToNat ip.1 : Rat) + (digitsToNat fp.1 : Rat) / (10 : Rat) ^ fp.1.length) *
        pow10 (expVal fp.2))
  | _ =>
    if ip.1.isEmpty then none
    else some ((p.1 : Rat) * (digitsToNat ip.1 : Rat) * pow10 (expVal ip.2))

/-- The non-blank lines of the CSV payload:
`csv.split('\n').filter(line => line.trim())`. -/
def csvLines (csv : String) : List (List Char) :=
  (splitChars '\n' csv.data).filter (fun l => !(trimChars l).isEmpty)

/-- The lower-cased, trimmed header cells:
`lines[0].split(',').map(h => h.trim().toLowerCase())`. -/
def headerCols (header : List Char) : List (List Char) :=
  (splitChars ',' header).map (fun h => lowerChars (trimChars h))

/-- `headers.findIndex(h => h.includes(p1) || h.includes(p2) || ...)`. -/
def colIdx (headers : List (List Char)) (pats : List (List Char)) : Option Nat :=
  headers.findIdx? (fun h => pats.any (fun p => charsHaveSub p h))

/-- One iteration of the row loop of `importCSVData`, condensed to its
outcome: `some item` exactly when the row passes every check (at least four
cells, all four header columns found, truthy name, numeric quantity and
prices, `qty > 0`, `cost > 0` — note: no check on `sell`), otherwise `none`
(each of the source's three `skipped++` sites). -/
def parseRow (headers : List (List Char)) (line : List Char) : Option StockItem :=
  let values := (splitChars ',' (trimChars line)).map trimChars
  if values.length < 4 then none
  else
    match colIdx headers ["item".data, "name".data],
          colIdx headers ["qty".data, "quantity".data],
          colIdx headers ["cost".data],
          colIdx headers ["sell".data, "price".data] with
    | some ni, some qi, some ci, some si =>
      let name := (values[ni]?).getD []
      match parseIntJS ((values[qi]?).getD []),
            parseFloatJS ((values[ci]?).getD []),
            parseFloatJS ((values[si]?).getD []) with
      | some q, some c, some s =>
        if ¬name.isEmpty ∧ 0 < q ∧ 0 < c then some ⟨⟨name⟩, q, c, s⟩ else none
      | _, _, _ => none
    | _, _, _, _ => none

/-- The row loop: accumulate `(imported, skipped, importData)`. -/
def processRow (headers : List (List Char)) (acc : Nat × Nat × List StockItem)
    (line : List Char) : Nat × Nat × List StockItem :=
  match parseRow headers line with
  | some it => (acc.1 + 1, acc.2.1, acc.2.2 ++ [it])
  | none => (acc.1, acc.2.1 + 1, acc.2.2)

/-- Errors thrown by `importCSVData`: fewer than two non-blank lines
("CSV file is empty or invalid") or an empty `importData`
("No valid data found in CSV"). -/
inductive CSVError where
  | emptyCSV
  | noValidData
  deriving DecidableEq, Repr

/-- The parsing phase of `importCSVData`, shared by both backend branches:
yields the `imported`/`skipped` counters and the parsed `importData`. -/
def importCSVCore (csv : String) : Except CSVError (Nat × Nat × List StockItem) :=
  match csvLines csv with
  | [] => .error .emptyCSV
  | [_] => .error .emptyCSV
  | header :: rows =>
    let headers := headerCols header
    let r := rows.foldl (processRow headers) (0, 0, [])
    if r.2.2.isEmpty then .error .noValidData
    else .ok r

/-- `importCSVData` in fallback mode: parse, then apply each parsed row via
the additive-qty/overwrite-prices merge; the reported toast carries the
`imported` and `skipped` counts, returned here alongside the state. -/
def importCSVF (csv : String) (st : FallbackState) :
    Except CSVError (Nat × Nat × FallbackState) :=
  match importCSVCore csv with
  | .error e => .error e
  | .ok r =>
    .ok (r.1, r.2.1, { st with stockData := r.2.2.foldl upsertStock st.stockData })

/-- The value one row's `get` handler computes and `put`s in the durable CSV
import.  The `forEach` loop places every `store.get` synchronously before any
handler runs, and a `put` issued from an `onsuccess` handler joins the
transaction's request queue behind the remaining gets — so every `get` reads
the pre-import store, and each row's merge is computed against that
original stock, not against earlier rows' puts. -/
def csvMergedRow (orig : List StockItem) (it : StockItem) : StockItem :=
  match findStock orig it.name with
  | some e => { name := e.name, qty := e.qty + it.qty, cost := it.cost, sell := it.sell }
  | none => it

/-- `importCSVData` in durable mode: parse, then one transaction in which all
gets execute first (each row merged against the pre-import store via
`csvMergedRow`) and the resulting puts apply in row order — a later
duplicate-name row's put overwrites an earlier one's rather than
accumulating. -/
def importCSVI (csv : String) (st : IDBState) :
    Except CSVError (Nat × Nat × IDBState) :=
  match importCSVCore csv with
  | .error e => .error e
  | .ok r =>
    .ok (r.1, r.2.1,
      { st with stock := (r.2.2.map (csvMergedRow st.stock)).foldl idbPutStock st.stock })

/-- JS `a || b` on the optional numeric `id`/`key` fields: an absent field or
a stored `0` is falsy and falls through. -/
def jsOrNat (x : Option Nat) (y : Nat) : Nat :=
  match x with
  | some n => if n == 0 then y else n
  | none => y

/-- `salesData.slice(-50).reverse()`: the up-to-50 most recent sales,
newest first, as rendered by `updateSalesTable`. -/
def displaySales (sd : List SaleRecord) : List SaleRecord :=
  (sd.drop (sd.length - 50)).reverse

/-- The undo identifier `updateSalesTable` wires to the button in durable
mode: `sale.id || sale.key || (salesData.length - index)`. -/
def displayedSaleIdI (sd : List SaleRecord) (index : Nat) (sale : SaleRecord) : Nat :=
  jsOrNat sale.id? (jsOrNat sale.key? (sd.length - index))

/-- The undo identifier in fallback mode:
`salesData.length - 1 - index` (a positional index into `salesData`). -/
def displayedSaleIdF (sd : List SaleRecord) (index : Nat) : Nat :=
  sd.length - 1 - index

/-! ### Helper lemmas -/

theorem findStock_append (l₁ l₂ : List StockItem) (n : String) :
    findStock (l₁ ++ l₂) n =
      match findStock l₁ n with
      | some x => some x
      | none => findStock l₂ n := by
  induction l₁ with
  | nil => simp [findStock]
  | cons i rest ih =>
    by_cases h : i.name == n
    · simp [findStock, h]
    · simp only [List.cons_append, findStock, h]
      simpa [h] using ih

theorem findStock_eq_none_iff (l : List StockItem) (n : String) :
    findStock l n = none ↔ ∀ i ∈ l, i.name ≠ n := by
  induction l with
  | nil => simp [findStock]
  | cons i rest ih =>
    by_cases h : i.name = n
    · simp [findStock, h]
    · simp [findStock, h, ih]

theorem findStock_name (l : List StockItem) (n : String) (item : StockItem)
    (h : findStock l n = some item) : item.name = n := by
  induction l with
  | nil => simp [findStock] at h
  | cons i rest ih =>
    by_cases hi : i.name == n
    · simp [findStock, hi] at h
      subst h
      exact eq_of_beq hi
    · simp [findStock, hi] at h
      exact ih h

theorem updStockQty_zero (l : List StockItem) (n : String) :
    updStockQty l n 0 = l := by
  induction l with
  | nil => rfl
  | cons i rest ih =>
    by_cases h : i.name == n
    · simp [updStockQty, h]
    · simp [updStockQty, h, ih]

theorem updStockQty_updStockQty (l : List StockItem) (n : String) (d e : Int) :
    updStockQty (updStockQty l n d) n e = updStockQty l n (d + e) := by
  induction l with
  | nil => rfl
  | cons i rest ih =>
    by_cases h : i.name == n
    · simp [updStockQty, h, add_assoc]
    · simp [updStockQty, h, ih]

theorem updStockQty_cancel (l : List StockItem) (n : String) (q : Int) :
    updStockQty (updStockQty l n (-q)) n q = l := by
  rw [updStockQty_updStockQty, neg_add_cancel, updStockQty_zero]

theorem idbPutStock_find (l : List StockItem) (it : StockItem) :
    findStock (idbPutStock l it) it.name = some it := by
  induction l with
  | nil => simp [idbPutStock, findStock]
  | cons i rest ih =>
    by_cases h : i.name == it.name
    · simp [idbPutStock, h, findStock]
    · simp [idbPutStock, h, findStock, ih]

theorem idbPutStock_idbPutStock (l : List StockItem) (it it' : StockItem)
    (h : it.name = it'.name) :
    idbPutStock (idbPutStock l it) it' = idbPutStock l it' := by
  induction l with
  | nil => simp [idbPutStock, h]
  | cons i rest ih =>
    by_cases hi : i.name == it.name
    · have hi' : (i.name == it'.name) = true := by
        rwa [← h]
      simp [idbPutStock, hi, hi', h]
    · have hi' : (i.name == it'.name) = false := by
        rw [← h]
        simpa using hi
      simp [idbPutStock, hi, hi', ih]

theorem idbPutStock_same (l : List StockItem) (n : String) (item : StockItem)
    (h : findStock l n = some item) : idbPutStock l item = l := by
  induction l with
  | nil => simp [findStock] at h
  | cons i rest ih =>
    by_cases hi : i.name == n
    · simp [findStock, hi] at h
      have hname : (i.name == item.name) = true := by
        subst h
        simp
      simp [idbPutStock, hname, h]
    · simp [findStock, hi] at h
      have hn : item.name = n := findStock_name rest n item h
      have hname : (i.name == item.name) = false := by
        rw [hn]
        simpa using hi
      simp [idbPutStock, hname, ih h]

theorem idbPutStock_of_none (l : List StockItem) (it : StockItem)
    (h : findStock l it.name = none) : idbPutStock l it = l ++ [it] := by
  induction l with
  | nil => simp [idbPutStock]
  | cons i rest ih =>
    simp only [findStock] at h
    by_cases hi : i.name == it.name
    · simp [hi] at h
    · simp [hi] at h
      simp [idbPutStock, hi, ih h]

theorem upsertStock_of_none (l : List StockItem) (it : StockItem)
    (h : findStock l it.name = none) : upsertStock l it = l ++ [it] := by
  induction l with
  | nil => simp [upsertStock]
  | cons i rest ih =>
    simp only [findStock] at h
    by_cases hi : i.name == it.name
    · simp [hi] at h
    · simp [hi] at h
      simp [upsertStock, hi, ih h]

theorem upsertStock_concat_merge (l : List StockItem) (x it : StockItem)
    (hn : x.name = it.name) (h : findStock l it.name = none) :
    upsertStock (l ++ [x]) it =
      l ++ [{ name := x.name, qty := x.qty + it.qty, cost := it.cost, sell := it.sell }] := by
  induction l with
  | nil =>
    have : (x.name == it.name) = true := by simp [hn]
    simp [upsertStock, this]
  | cons i rest ih =>
    simp only [findStock] at h
    by_cases hi : i.name == it.name
    · simp [hi] at h
    · simp [hi] at h
      simp [upsertStock, hi, ih h]

theorem idbPutStock_concat_replace (l : List StockItem) (x y : StockItem)
    (hn : x.name = y.name) (h : findStock l y.name = none) :
    idbPutStock (l ++ [x]) y = l ++ [y] := by
  induction l with
  | nil =>
    have : (x.name == y.name) = true := by simp [hn]
    simp [idbPutStock, this]
  | cons i rest ih =>
    simp only [findStock] at h
    by_cases hi : i.name == y.name
    · simp [hi] at h
    · simp [hi] at h
      simp [idbPutStock, hi, ih h]

theorem findStock_concat_of_none (l : List StockItem) (x : StockItem) (n : String)
    (hx : x.name = n) (h : findStock l n = none) :
    findStock (l ++ [x]) n = some x := by
  rw [findStock_append, h]
  simp [findStock, hx]
theorem getElem?_concat_len {α : Type} (l : List α) (a : α) :
    (l ++ [a])[l.length]? = some a := by
  induction l with
  | nil => rfl
  | cons x xs ih => simp [ih]

theorem eraseIdx_concat_len {α : Type} (l : List α) (a : α) :
    (l ++ [a]).eraseIdx l.length = l := by
  induction l with
  | nil => rfl
  | cons x xs ih => simpa [List.eraseIdx] using ih

theorem idbGetSale_concat (sales : List (Nat × SaleRecord)) (k : Nat) (r : SaleRecord)
    (h : ∀ p ∈ sales, p.1 ≠ k) :
    idbGetSale (sales ++ [(k, r)]) k = some r := by
  induction sales with
  | nil => simp [idbGetSale, List.find?]
  | cons p rest ih =>
    have hp : p.1 ≠ k := h p (by simp)
    have hrest : ∀ q ∈ rest, q.1 ≠ k := fun q hq => h q (by simp [hq])
    simp only [idbGetSale, List.cons_append, List.find?] at ih ⊢
    have : (p.1 == k) = false := by simpa using hp
    rw [this]
    exact ih hrest

theorem filter_concat_key (sales : List (Nat × SaleRecord)) (k : Nat) (r : SaleRecord)
    (h : ∀ p ∈ sales, p.1 ≠ k) :
    (sales ++ [(k, r)]).filter (fun p => p.1 != k) = sales := by
  induction sales with
  | nil => simp
  | cons p rest ih =>
    have hp : p.1 ≠ k := h p (by simp)
    have hrest : ∀ q ∈ rest, q.1 ≠ k := fun q hq => h q (by simp [hq])
    have hb : (p.1 != k) = true := by simpa using hp
    simp only [List.cons_append, List.filter_cons, hb, if_true]
    rw [ih hrest]

theorem idbGetSale_filter_ne (sales : List (Nat × SaleRecord)) (k : Nat) :
    idbGetSale (sales.filter (fun p => p.1 != k)) k = none := by
  induction sales with
  | nil => simp [idbGetSale]
  | cons p rest ih =>
    by_cases hp : p.1 = k
    · have : (p.1 != k) = false := by simpa using hp
      simpa [List.filter, this] using ih
    · have h1 : (p.1 != k) = true := by simpa using hp
      have h2 : (p.1 == k) = false := by simpa using hp
      simp only [idbGetSale, List.filter, h1, List.find?, h2] at ih ⊢
      exact ih

theorem addAllSales_vals (l : List SaleRecord) (st : IDBState) :
    (addAllSales st l).sales.map (·.2) = st.sales.map (·.2) ++ l := by
  induction l generalizing st with
  | nil => simp [addAllSales]
  | cons r rest ih =>
    simp only [addAllSales, List.foldl] at ih ⊢
    rw [ih]
    simp

theorem foldl_idbPutStock_fresh (l acc : List StockItem)
    (hfresh : ∀ it ∈ l, findStock acc it.name = none)
    (hnodup : (l.map StockItem.name).Nodup) :
    l.foldl idbPutStock acc = acc ++ l := by
  induction l generalizing acc with
  | nil => simp
  | cons hd tl ih =>
    have h1 : findStock acc hd.name = none := hfresh hd (by simp)
    have hstep : idbPutStock acc hd = acc ++ [hd] := idbPutStock_of_none acc hd h1
    simp only [List.foldl, hstep]
    have hp : (∀ x ∈ tl, ¬x.name = hd.name) ∧ (tl.map StockItem.name).Nodup := by
      simpa using hnodup
    have hfresh' : ∀ it ∈ tl, findStock (acc ++ [hd]) it.name = none := by
      intro it hit
      rw [findStock_append, hfresh it (by simp [hit])]
      have hne : (hd.name == it.name) = false := by
        simp only [beq_eq_false_iff_ne, ne_eq]
        exact fun he => hp.1 it hit he.symm
      simp [findStock, hne]
    rw [ih (acc ++ [hd]) hfresh' hp.2]
    simp

theorem foldl_idbPutStock_nodup (l : List StockItem)
    (hnodup : (l.map StockItem.name).Nodup) :
    l.foldl idbPutStock [] = l := by
  have := foldl_idbPutStock_fresh l [] (fun it _ => by simp [findStock]) hnodup
  simpa using this
theorem foldl_processRow (headers : List (List Char)) (rows : List (List Char))
    (i s : Nat) (d : List StockItem) :
    rows.foldl (processRow headers) (i, s, d) =
      (i + rows.countP (fun r => (parseRow headers r).isSome),
       s + rows.countP (fun r => (parseRow headers r).isNone),
       d ++ rows.filterMap (parseRow headers)) := by
  induction rows generalizing i s d with
  | nil => simp
  | cons r rest ih =>
    cases hr : parseRow headers r with
    | some it =>
      simp only [List.foldl, processRow, hr]
      rw [ih]
      simp [List.countP_cons, hr, List.filterMap_cons]
      omega
    | none =>
      simp only [List.foldl, processRow, hr]
      rw [ih]
      simp [List.countP_cons, hr, List.filterMap_cons]
      omega

/-! ### Claim theorems -/

/-- C1: For every stock item and every sale recorded against it, performing
`addSale` and then immediately `deleteSale` on the identifier of that sale
(the positional index `salesData.length` in fallback mode; the assigned
auto-increment key in durable mode) restores the item's stock quantity to
its pre-sale value, removes the sale record, and returns the sales ledger to
its pre-sale length (here: to exactly its pre-sale contents). -/
theorem recordSale_undo_roundtrip :
    (∀ (st : FallbackState) (staff name : String) (qty : Int) (price : Rat) (date : Nat)
        (st' : FallbackState),
      addSaleF st staff name qty price date = .ok st' →
      st'.salesData.length = st.salesData.length + 1 ∧
      displayedSaleIdF st'.salesData 0 = st.salesData.length ∧
      deleteSaleF st' st.salesData.length = .ok st) ∧
    (∀ (st : IDBState) (staff name : String) (qty : Int) (price : Rat) (date : Nat)
        (k : Nat) (st' : IDBState),
      (∀ p ∈ st.sales, p.1 ≠ st.nextKey) →
      addSaleI st staff name qty price date = .ok (k, st') →
      st'.sales.length = st.sales.length + 1 ∧
      ∃ st'', deleteSaleI st' k = .ok st'' ∧
        st''.stock = st.stock ∧ st''.sales = st.sales) := by
  constructor
  · intro st staff name qty price date st' h
    simp only [addSaleF] at h
    split at h
    · exact absurd h (by simp)
    split at h
    · exact absurd h (by simp)
    split at h
    · exact absurd h (by simp)
    split at h
    · exact absurd h (by simp)
    case _ item hfind =>
    split at h
    · exact absurd h (by simp)
    simp only [Except.ok.injEq] at h
    subst h
    refine ⟨by simp, by simp [displayedSaleIdF], ?_⟩
    simp only [deleteSaleF, getElem?_concat_len]
    rw [eraseIdx_concat_len]
    simp only [mkSaleRecord]
    rw [updStockQty_cancel]
  · intro st staff name qty price date k st' hkeys h
    simp only [addSaleI] at h
    split at h
    · exact absurd h (by simp)
    split at h
    · exact absurd h (by simp)
    split at h
    · exact absurd h (by simp)
    split at h
    · exact absurd h (by simp)
    case _ item hfind =>
    split at h
    · exact absurd h (by simp)
    simp only [Except.ok.injEq, Prod.mk.injEq] at h
    obtain ⟨hk, hst⟩ := h
    subst hk
    subst hst
    refine ⟨by simp, ?_⟩
    have hname : item.name = name := findStock_name _ _ _ hfind
    have hget : idbGetSale
        (st.sales ++ [(st.nextKey, mkSaleRecord (staffOrUnknown staff) name qty price item.cost date)])
        st.nextKey = some (mkSaleRecord (staffOrUnknown staff) name qty price item.cost date) :=
      idbGetSale_concat st.sales st.nextKey _ hkeys
    simp only [deleteSaleI, hget]
    simp only [mkSaleRecord]
    have hfind' : findStock (idbPutStock st.stock { item with qty := item.qty - qty }) name =
        some { item with qty := item.qty - qty } := by
      have := idbPutStock_find st.stock { item with qty := item.qty - qty }
      simpa [hname] using this
    simp only [hfind']
    refine ⟨_, rfl, ?_, ?_⟩
    · dsimp only
      rw [idbPutStock_idbPutStock _ _ _ (by simp)]
      have heq : ({ item with qty := item.qty - qty + qty } : StockItem) = item := by
        cases item
        simp
      rw [heq]
      exact idbPutStock_same st.stock name item hfind
    · dsimp only
      exact filter_concat_key st.sales st.nextKey _ hkeys

/-- Witness for C1: the spec's own example — 50 Cement at cost 8000, sell 5
at 10000, then undo — replayed in both backends. -/
theorem recordSale_undo_roundtrip_witness :
    (((⟨[⟨"Cement", 45, 8000, 10000⟩], [mkSaleRecord "Alice" "Cement" 5 10000 8000 0]⟩ :
        FallbackState)).salesData.length = 0 + 1 ∧
      displayedSaleIdF [mkSaleRecord "Alice" "Cement" 5 10000 8000 0] 0 = 0 ∧
      deleteSaleF ⟨[⟨"Cement", 45, 8000, 10000⟩], [mkSaleRecord "Alice" "Cement" 5 10000 8000 0]⟩ 0 =
        .ok ⟨[⟨"Cement", 50, 8000, 10000⟩], []⟩) ∧
    (((⟨[⟨"Cement", 45, 8000, 10000⟩], [(1, mkSaleRecord "Alice" "Cement" 5 10000 8000 0)], 2⟩ :
        IDBState)).sales.length = ([] : List (Nat × SaleRecord)).length + 1 ∧
      ∃ st'', deleteSaleI ⟨[⟨"Cement", 45, 8000, 10000⟩],
          [(1, mkSaleRecord "Alice" "Cement" 5 10000 8000 0)], 2⟩ 1 = .ok st'' ∧
        st''.stock = [⟨"Cement", 50, 8000, 10000⟩] ∧ st''.sales = []) :=
  ⟨recordSale_undo_roundtrip.1 ⟨[⟨"Cement", 50, 8000, 10000⟩], []⟩ "Alice" "Cement" 5 10000 0
      ⟨[⟨"Cement", 45, 8000, 10000⟩], [mkSaleRecord "Alice" "Cement" 5 10000 8000 0]⟩ (by rfl),
   recordSale_undo_roundtrip.2 ⟨[⟨"Cement", 50, 8000, 10000⟩], [], 1⟩ "Alice" "Cement" 5 10000 0 1
      ⟨[⟨"Cement", 45, 8000, 10000⟩], [(1, mkSaleRecord "Alice" "Cement" 5 10000 8000 0)], 2⟩
      (by simp) (by rfl)⟩

/-- C2: For every stock item with quantity Q, a well-formed `addSale` request
for strictly more than Q fails with the insufficient-stock error in both
backends and performs no mutation: the stock ledger and sales ledger are left
untouched. -/
theorem recordSale_insufficient :
    (∀ (st : FallbackState) (staff name : String) (qty : Int) (price : Rat) (date : Nat)
        (item : StockItem),
      name ≠ "" → 0 < price → findStock st.stockData name = some item →
      0 ≤ item.qty → item.qty < qty →
      addSaleF st staff name qty price date = .error .insufficientStock ∧
      addSaleFRun st staff name qty price date = st) ∧
    (∀ (st : IDBState) (staff name : String) (qty : Int) (price : Rat) (date : Nat)
        (item : StockItem),
      name ≠ "" → 0 < price → findStock st.stock name = some item →
      0 ≤ item.qty → item.qty < qty →
      addSaleI st staff name qty price date = .error .insufficientStock ∧
      addSaleIRun st staff name qty price date = st) := by
  constructor
  · intro st staff name qty price date item hn hp hfind hnn hlt
    have hq : ¬qty ≤ 0 := by omega
    have hp' : ¬price ≤ 0 := not_le.mpr hp
    have h : addSaleF st staff name qty price date = .error .insufficientStock := by
      simp only [addSaleF, if_neg hn, if_neg hq, if_neg hp', hfind, if_pos hlt]
    exact ⟨h, by simp [addSaleFRun, h]⟩
  · intro st staff name qty price date item hn hp hfind hnn hlt
    have hq : ¬qty ≤ 0 := by omega
    have hp' : ¬price ≤ 0 := not_le.mpr hp
    have h : addSaleI st staff name qty price date = .error .insufficientStock := by
      simp only [addSaleI, if_neg hn, if_neg hq, if_neg hp', hfind, if_pos hlt]
    exact ⟨h, by simp [addSaleIRun, h]⟩

/-- Witness for C2: 55 requested from a stock of 50. -/
theorem recordSale_insufficient_witness :
    (addSaleF ⟨[⟨"Cement", 50, 8000, 10000⟩], []⟩ "Alice" "Cement" 55 10000 0 =
        .error .insufficientStock ∧
      addSaleFRun ⟨[⟨"Cement", 50, 8000, 10000⟩], []⟩ "Alice" "Cement" 55 10000 0 =
        ⟨[⟨"Cement", 50, 8000, 10000⟩], []⟩) ∧
    (addSaleI ⟨[⟨"Cement", 50, 8000, 10000⟩], [], 1⟩ "Alice" "Cement" 55 10000 0 =
        .error .insufficientStock ∧
      addSaleIRun ⟨[⟨"Cement", 50, 8000, 10000⟩], [], 1⟩ "Alice" "Cement" 55 10000 0 =
        ⟨[⟨"Cement", 50, 8000, 10000⟩], [], 1⟩) :=
  ⟨recordSale_insufficient.1 ⟨[⟨"Cement", 50, 8000, 10000⟩], []⟩ "Alice" "Cement" 55 10000 0
      ⟨"Cement", 50, 8000, 10000⟩ (by decide) (by decide) (by rfl) (by decide) (by decide),
   recordSale_insufficient.2 ⟨[⟨"Cement", 50, 8000, 10000⟩], [], 1⟩ "Alice" "Cement" 55 10000 0
      ⟨"Cement", 50, 8000, 10000⟩ (by decide) (by decide) (by rfl) (by decide) (by decide)⟩

/-- C8: every sale accepted by `addSale` stores, at creation time, a record
whose `revenue` is `qty * sellPrice` and whose `profit` is
`qty * (sellPrice - cost)`, with `cost` snapshotted from the stock item. -/
theorem recordSale_revenue_profit :
    (∀ (st : FallbackState) (staff name : String) (qty : Int) (price : Rat) (date : Nat)
        (item : StockItem) (st' : FallbackState),
      findStock st.stockData name = some item →
      addSaleF st staff name qty price date = .ok st' →
      ∃ r, st'.salesData = st.salesData ++ [r] ∧
        r.qty = qty ∧ r.sellPrice = price ∧ r.cost = item.cost ∧
        r.revenue = (qty : Rat) * price ∧ r.profit = (qty : Rat) * (price - item.cost)) ∧
    (∀ (st : IDBState) (staff name : String) (qty : Int) (price : Rat) (date : Nat)
        (item : StockItem) (k : Nat) (st' : IDBState),
      findStock st.stock name = some item →
      addSaleI st staff name qty price date = .ok (k, st') →
      ∃ r, st'.sales = st.sales ++ [(k, r)] ∧
        r.qty = qty ∧ r.sellPrice = price ∧ r.cost = item.cost ∧
        r.revenue = (qty : Rat) * price ∧ r.profit = (qty : Rat) * (price - item.cost)) := by
  constructor
  · intro st staff name qty price date item st' hfind h
    simp only [addSaleF, hfind] at h
    split at h
    · exact absurd h (by simp)
    split at h
    · exact absurd h (by simp)
    split at h
    · exact absurd h (by simp)
    split at h
    · exact absurd h (by simp)
    simp only [Except.ok.injEq] at h
    subst h
    exact ⟨mkSaleRecord (staffOrUnknown staff) name qty price item.cost date,
      by simp, by simp [mkSaleRecord], by simp [mkSaleRecord], by simp [mkSaleRecord],
      by simp [mkSaleRecord], by simp [mkSaleRecord]⟩
  · intro st staff name qty price date item k st' hfind h
    simp only [addSaleI, hfind] at h
    split at h
    · exact absurd h (by simp)
    split at h
    · exact absurd h (by simp)
    split at h
    · exact absurd h (by simp)
    split at h
    · exact absurd h (by simp)
    simp only [Except.ok.injEq, Prod.mk.injEq] at h
    obtain ⟨hk, hst⟩ := h
    subst hk
    subst hst
    exact ⟨mkSaleRecord (staffOrUnknown staff) name qty price item.cost date,
      by simp, by simp [mkSaleRecord], by simp [mkSaleRecord], by simp [mkSaleRecord],
      by simp [mkSaleRecord], by simp [mkSaleRecord]⟩

/-- Witness for C8: the spec's example sale (5 × 10000 against cost 8000)
stores revenue 50000 and profit 10000. -/
theorem recordSale_revenue_profit_witness :
    (∃ r, (⟨[⟨"Cement", 45, 8000, 10000⟩], [mkSaleRecord "Alice" "Cement" 5 10000 8000 0]⟩ :
        FallbackState).salesData = [] ++ [r] ∧
      r.qty = 5 ∧ r.sellPrice = 10000 ∧ r.cost = 8000 ∧
      r.revenue = ((5 : Int) : Rat) * 10000 ∧ r.profit = ((5 : Int) : Rat) * (10000 - 8000)) :=
  recordSale_revenue_profit.1 ⟨[⟨"Cement", 50, 8000, 10000⟩], []⟩ "Alice" "Cement" 5 10000 0
    ⟨"Cement", 50, 8000, 10000⟩
    ⟨[⟨"Cement", 45, 8000, 10000⟩], [mkSaleRecord "Alice" "Cement" 5 10000 8000 0]⟩
    (by rfl) (by rfl)

/-- C9: `addSale` stores sale records without `id` or `key` fields in either
backend (the IndexedDB `sales` store keeps its auto-increment key
out-of-line), so when the durable backend's sales are read back the
identifier wired to the undo button is computed positionally as
`salesData.length - index`, not from the storage-assigned key: concretely,
for a store holding keys 1 and 3, the identifier computed for the newest
sale is 2, which is no stored key at all. -/
theorem saleRecord_positional_id :
    (∀ (staff name : String) (qty : Int) (price cost : Rat) (date : Nat),
      (mkSaleRecord staff name qty price cost date).id? = none ∧
      (mkSaleRecord staff name qty price cost date).key? = none) ∧
    (∀ (sd : List SaleRecord) (index : Nat) (sale : SaleRecord),
      (displaySales sd)[index]? = some sale →
      sale.id? = none → sale.key? = none →
      displayedSaleIdI sd index sale = sd.length - index) ∧
    (displayedSaleIdI
        [mkSaleRecord "a" "A" 1 5 3 0, mkSaleRecord "b" "A" 1 5 3 1] 0
        (mkSaleRecord "b" "A" 1 5 3 1) = 2 ∧
      idbGetSale [(1, mkSaleRecord "a" "A" 1 5 3 0), (3, mkSaleRecord "b" "A" 1 5 3 1)]
        (displayedSaleIdI
          [mkSaleRecord "a" "A" 1 5 3 0, mkSaleRecord "b" "A" 1 5 3 1] 0
          (mkSaleRecord "b" "A" 1 5 3 1)) = none) := by
  refine ⟨?_, ?_, by rfl, by rfl⟩
  · intro staff name qty price cost date
    exact ⟨rfl, rfl⟩
  · intro sd index sale _ hid hkey
    simp [displayedSaleIdI, jsOrNat, hid, hkey]

/-- Witness for C9: a one-sale ledger displays undo identifier 1 for its
newest (index 0) sale. -/
theorem saleRecord_positional_id_witness :
    displayedSaleIdI [mkSaleRecord "a" "A" 1 5 3 0] 0 (mkSaleRecord "a" "A" 1 5 3 0) =
      [mkSaleRecord "a" "A" 1 5 3 0].length - 0 :=
  saleRecord_positional_id.2.1 [mkSaleRecord "a" "A" 1 5 3 0] 0 (mkSaleRecord "a" "A" 1 5 3 0)
    (by rfl) rfl rfl

/-- Counterexample for C3: in the fallback backend the identifiers are
positional, so with two recorded sales, undoing id 0 twice succeeds both
times — the second call does not fail with a not-found error (it removes the
other record and leaves the sales ledger empty). -/
theorem undoSale_twice_fallback_cex :
    deleteSaleF ⟨[⟨"A", 1, 1, 2⟩], [mkSaleRecord "s" "A" 1 2 1 0, mkSaleRecord "t" "A" 1 2 1 1]⟩ 0 =
      .ok ⟨[⟨"A", 2, 1, 2⟩], [mkSaleRecord "t" "A" 1 2 1 1]⟩ ∧
    deleteSaleF ⟨[⟨"A", 2, 1, 2⟩], [mkSaleRecord "t" "A" 1 2 1 1]⟩ 0 =
      .ok ⟨[⟨"A", 3, 1, 2⟩], []⟩ :=
  ⟨rfl, rfl⟩

/-- C3 (amended): undoing the same identifier twice: the first call succeeds;
the second fails with a not-found error in the durable backend always, and in
the fallback backend exactly when the identifier no longer indexes the
shortened list (the undone sale was the last, most recent entry); for any
smaller fallback identifier the second call succeeds again, removing a
different record. -/
theorem undoSale_twice :
    (∀ (st : IDBState) (k : Nat) (sale : SaleRecord),
      idbGetSale st.sales k = some sale →
      ∃ st', deleteSaleI st k = .ok st' ∧ deleteSaleI st' k = .error .notFound) ∧
    (∀ (st : FallbackState) (saleId : Nat),
      saleId + 1 = st.salesData.length →
      ∃ st', deleteSaleF st saleId = .ok st' ∧ deleteSaleF st' saleId = .error .notFound) ∧
    (∀ (st : FallbackState) (saleId : Nat),
      saleId + 1 < st.salesData.length →
      ∃ st' st'', deleteSaleF st saleId = .ok st' ∧ deleteSaleF st' saleId = .ok st'') := by
  refine ⟨?_, ?_, ?_⟩
  · intro st k sale hget
    have h1 : deleteSaleI st k = .ok
        { stock :=
            match findStock st.stock sale.name with
            | some item => idbPutStock st.stock { item with qty := item.qty + sale.qty }
            | none => st.stock,
          sales := st.sales.filter (fun p => p.1 != k),
          nextKey := st.nextKey } := by
      simp only [deleteSaleI, hget]
    exact ⟨_, h1, by simp only [deleteSaleI, idbGetSale_filter_ne]⟩
  · intro st saleId hlen
    have hlt : saleId < st.salesData.length := by omega
    have hsale : st.salesData[saleId]? = some st.salesData[saleId] :=
      List.getElem?_eq_getElem hlt
    have hnone : (st.salesData.eraseIdx saleId)[saleId]? = none := by
      apply List.getElem?_eq_none
      rw [List.length_eraseIdx_of_lt hlt]
      omega
    have h1 : deleteSaleF st saleId = .ok
        { stockData := updStockQty st.stockData st.salesData[saleId].name
            st.salesData[saleId].qty,
          salesData := st.salesData.eraseIdx saleId } := by
      simp only [deleteSaleF, hsale]
    exact ⟨_, h1, by simp only [deleteSaleF, hnone]⟩
  · intro st saleId hlt
    have hsale : st.salesData[saleId]? = some st.salesData[saleId] :=
      List.getElem?_eq_getElem (by omega)
    have hlt' : saleId < (st.salesData.eraseIdx saleId).length := by
      rw [List.length_eraseIdx_of_lt (by omega)]
      omega
    have hsale' := List.getElem?_eq_getElem hlt'
    have h1 : deleteSaleF st saleId = .ok
        { stockData := updStockQty st.stockData st.salesData[saleId].name
            st.salesData[saleId].qty,
          salesData := st.salesData.eraseIdx saleId } := by
      simp only [deleteSaleF, hsale]
    have h2 : deleteSaleF
        ({ stockData := updStockQty st.stockData st.salesData[saleId].name
             st.salesData[saleId].qty,
           salesData := st.salesData.eraseIdx saleId } : FallbackState) saleId = .ok
        { stockData := updStockQty
            (updStockQty st.stockData st.salesData[saleId].name st.salesData[saleId].qty)
            (st.salesData.eraseIdx saleId)[saleId].name
            (st.salesData.eraseIdx saleId)[saleId].qty,
          salesData := (st.salesData.eraseIdx saleId).eraseIdx saleId } := by
      simp only [deleteSaleF, hsale']
    exact ⟨_, _, h1, h2⟩

/-- Witness for C3 (amended): a durable undo of key 1 and a fallback undo of
the last index, each failing with not-found when repeated, and a fallback
undo of index 0 out of two sales succeeding twice. -/
theorem undoSale_twice_witness :
    (∃ st', deleteSaleI ⟨[⟨"A", 1, 1, 2⟩], [(1, mkSaleRecord "s" "A" 1 2 1 0)], 2⟩ 1 = .ok st' ∧
      deleteSaleI st' 1 = .error .notFound) ∧
    (∃ st', deleteSaleF ⟨[⟨"A", 1, 1, 2⟩], [mkSaleRecord "s" "A" 1 2 1 0]⟩ 0 = .ok st' ∧
      deleteSaleF st' 0 = .error .notFound) ∧
    (∃ st' st'', deleteSaleF
        ⟨[⟨"A", 1, 1, 2⟩], [mkSaleRecord "s" "A" 1 2 1 0, mkSaleRecord "t" "A" 1 2 1 1]⟩ 0 =
        .ok st' ∧ deleteSaleF st' 0 = .ok st'') :=
  ⟨undoSale_twice.1 ⟨[⟨"A", 1, 1, 2⟩], [(1, mkSaleRecord "s" "A" 1 2 1 0)], 2⟩ 1
      (mkSaleRecord "s" "A" 1 2 1 0) (by rfl),
   undoSale_twice.2.1 ⟨[⟨"A", 1, 1, 2⟩], [mkSaleRecord "s" "A" 1 2 1 0]⟩ 0 (by rfl),
   undoSale_twice.2.2
      ⟨[⟨"A", 1, 1, 2⟩], [mkSaleRecord "s" "A" 1 2 1 0, mkSaleRecord "t" "A" 1 2 1 1]⟩ 0
      (by decide)⟩

/-- C4: a first `addShipment` of a fresh name inserts a new item with exactly
the given values, and a second `addShipment` with the same name yields an
item whose quantity is the sum of the two calls' quantities and whose
cost/sell are the second call's values — in both backends. -/
theorem upsertShipment_twice :
    (∀ (st : FallbackState) (nameInput : String) (q1 q2 : Int) (c1 s1 c2 s2 : Rat)
        (st1 st2 : FallbackState),
      findStock st.stockData (strTrim nameInput) = none →
      addShipmentF st nameInput q1 c1 s1 true = .ok st1 →
      addShipmentF st1 nameInput q2 c2 s2 true = .ok st2 →
      st1.stockData = st.stockData ++ [⟨strTrim nameInput, q1, c1, s1⟩] ∧
      st2.stockData = st.stockData ++ [⟨strTrim nameInput, q1 + q2, c2, s2⟩]) ∧
    (∀ (st : IDBState) (nameInput : String) (q1 q2 : Int) (c1 s1 c2 s2 : Rat)
        (st1 st2 : IDBState),
      findStock st.stock (strTrim nameInput) = none →
      addShipmentI st nameInput q1 c1 s1 true = .ok st1 →
      addShipmentI st1 nameInput q2 c2 s2 true = .ok st2 →
      st1.stock = st.stock ++ [⟨strTrim nameInput, q1, c1, s1⟩] ∧
      st2.stock = st.stock ++ [⟨strTrim nameInput, q1 + q2, c2, s2⟩]) := by
  constructor
  · intro st nameInput q1 q2 c1 s1 c2 s2 st1 st2 hfresh h1 h2
    simp only [addShipmentF] at h1 h2
    split at h1
    · exact absurd h1 (by simp)
    split at h1
    · exact absurd h1 (by simp)
    split at h1
    · exact absurd h1 (by simp)
    split at h1
    · exact absurd h1 (by simp)
    split at h1
    · exact absurd h1 (by simp)
    simp only [Except.ok.injEq] at h1
    subst h1
    have hup1 : upsertStock st.stockData ⟨strTrim nameInput, q1, c1, s1⟩ =
        st.stockData ++ [⟨strTrim nameInput, q1, c1, s1⟩] :=
      upsertStock_of_none _ _ hfresh
    refine ⟨by simpa using hup1, ?_⟩
    split at h2
    · exact absurd h2 (by simp)
    split at h2
    · exact absurd h2 (by simp)
    split at h2
    · exact absurd h2 (by simp)
    split at h2
    · exact absurd h2 (by simp)
    split at h2
    · exact absurd h2 (by simp)
    simp only [Except.ok.injEq] at h2
    subst h2
    simp only [hup1]
    rw [upsertStock_concat_merge _ _ _ (by simp) hfresh]
  · intro st nameInput q1 q2 c1 s1 c2 s2 st1 st2 hfresh h1 h2
    simp only [addShipmentI] at h1 h2
    split at h1
    · exact absurd h1 (by simp)
    split at h1
    · exact absurd h1 (by simp)
    split at h1
    · exact absurd h1 (by simp)
    split at h1
    · exact absurd h1 (by simp)
    split at h1
    · exact absurd h1 (by simp)
    simp only [Except.ok.injEq] at h1
    subst h1
    have hup1 : idbUpsertStock st.stock ⟨strTrim nameInput, q1, c1, s1⟩ =
        st.stock ++ [⟨strTrim nameInput, q1, c1, s1⟩] := by
      simp only [idbUpsertStock, hfresh]
      exact idbPutStock_of_none _ _ hfresh
    refine ⟨by simpa using hup1, ?_⟩
    split at h2
    · exact absurd h2 (by simp)
    split at h2
    · exact absurd h2 (by simp)
    split at h2
    · exact absurd h2 (by simp)
    split at h2
    · exact absurd h2 (by simp)
    split at h2
    · exact absurd h2 (by simp)
    simp only [Except.ok.injEq] at h2
    subst h2
    simp only [hup1]
    have hfound : findStock (st.stock ++ [⟨strTrim nameInput, q1, c1, s1⟩]) (strTrim nameInput) =
        some ⟨strTrim nameInput, q1, c1, s1⟩ :=
      findStock_concat_of_none _ _ _ rfl hfresh
    simp only [idbUpsertStock, hfound]
    exact idbPutStock_concat_replace _ _ _ (by simp) hfresh

/-- Witness for C4: two shipments of "Cement" (10 then 7 units) merge to
17 units with the second call's prices. -/
theorem upsertShipment_twice_witness :
    ((⟨[⟨"Cement", 10, 5, 8⟩], []⟩ : FallbackState).stockData =
        [] ++ [⟨"Cement", 10, 5, 8⟩] ∧
      (⟨[⟨"Cement", 17, 6, 9⟩], []⟩ : FallbackState).stockData =
        [] ++ [⟨"Cement", 17, 6, 9⟩]) ∧
    ((⟨[⟨"Cement", 10, 5, 8⟩], [], 1⟩ : IDBState).stock =
        [] ++ [⟨"Cement", 10, 5, 8⟩] ∧
      (⟨[⟨"Cement", 17, 6, 9⟩], [], 1⟩ : IDBState).stock =
        [] ++ [⟨"Cement", 17, 6, 9⟩]) :=
  ⟨upsertShipment_twice.1 ⟨[], []⟩ "Cement" 10 7 5 8 6 9
      ⟨[⟨"Cement", 10, 5, 8⟩], []⟩ ⟨[⟨"Cement", 17, 6, 9⟩], []⟩ (by rfl) (by rfl) (by rfl),
   upsertShipment_twice.2 ⟨[], [], 1⟩ "Cement" 10 7 5 8 6 9
      ⟨[⟨"Cement", 10, 5, 8⟩], [], 1⟩ ⟨[⟨"Cement", 17, 6, 9⟩], [], 1⟩ (by rfl) (by rfl) (by rfl)⟩

theorem addAllSales_stock (l : List SaleRecord) (st : IDBState) :
    (addAllSales st l).stock = st.stock := by
  induction l generalizing st with
  | nil => rfl
  | cons r rest ih => simpa [addAllSales] using ih _

/-- C5: exporting a backup (a snapshot of both ledgers) and importing it back
reproduces the stock and sales ledgers exactly: unconditionally in the
fallback backend, and in the durable backend for any store contents with
unique item names (an invariant of the name-keyed store); the re-imported
durable sales receive fresh keys but hold the same records. -/
theorem backup_roundtrip :
    (∀ (st st₂ : FallbackState) (now : Nat),
      importJSONF (docOfBackup (backupDataF st now)) st₂ =
        .ok ⟨st.stockData, st.salesData⟩) ∧
    (∀ (st st₂ : IDBState) (now : Nat),
      (st.stock.map StockItem.name).Nodup →
      ∃ st', importJSONI (docOfBackup (backupDataI st now)) st₂ = .ok st' ∧
        st'.stock = st.stock ∧ st'.sales.map (·.2) = st.sales.map (·.2)) := by
  constructor
  · intro st st₂ now
    rfl
  · intro st st₂ now hnodup
    refine ⟨_, rfl, ?_, ?_⟩
    · simp only [docOfBackup, backupDataI, importJSONI]
      rw [addAllSales_stock]
      exact foldl_idbPutStock_nodup _ hnodup
    · simp only [docOfBackup, backupDataI, importJSONI]
      rw [addAllSales_vals]
      simp

/-- Witness for C5: a durable state with one stock item and one sale
round-trips through backup and import. -/
theorem backup_roundtrip_witness :
    ∃ st', importJSONI (docOfBackup (backupDataI
        ⟨[⟨"Cement", 50, 8000, 10000⟩], [(1, mkSaleRecord "Alice" "Cement" 5 10000 8000 0)], 2⟩ 9))
        ⟨[⟨"Old", 1, 1, 1⟩], [(4, mkSaleRecord "x" "Old" 1 1 1 2)], 5⟩ = .ok st' ∧
      st'.stock = [⟨"Cement", 50, 8000, 10000⟩] ∧
      st'.sales.map (·.2) = [(1, mkSaleRecord "Alice" "Cement" 5 10000 8000 0)].map (·.2) :=
  backup_roundtrip.2
    ⟨[⟨"Cement", 50, 8000, 10000⟩], [(1, mkSaleRecord "Alice" "Cement" 5 10000 8000 0)], 2⟩
    ⟨[⟨"Old", 1, 1, 1⟩], [(4, mkSaleRecord "x" "Old" 1 1 1 2)], 5⟩ 9 (by simp)

/-- C6: `importJSONData` fails with the validation error when the document's
`stock` field is missing/falsy or not an array, leaving both backends'
ledgers unchanged; when `stock` is an array it replaces both ledgers
wholesale — the new stock is rebuilt from the document alone and every
pre-existing sale is discarded — with an array `sales` imported as given and
a missing `sales` defaulting to an empty sales ledger. -/
theorem importBackup_replace :
    (∀ (doc : ImportDoc) (stF : FallbackState) (stI : IDBState),
      doc.stock = .missing ∨ doc.stock = .nonList →
      importJSONF doc stF = .error .invalidStock ∧
      importJSONFRun doc stF = stF ∧
      importJSONI doc stI = .error .invalidStock ∧
      importJSONIRun doc stI = stI) ∧
    (∀ (l : List StockItem) (ls : List SaleRecord) (doc : ImportDoc)
        (stF : FallbackState) (stI : IDBState),
      doc.stock = .arr l → doc.sales = .arr ls →
      importJSONF doc stF = .ok ⟨l, ls⟩ ∧
      ∃ st', importJSONI doc stI = .ok st' ∧
        st'.stock = l.foldl idbPutStock [] ∧ st'.sales.map (·.2) = ls) ∧
    (∀ (l : List StockItem) (doc : ImportDoc) (stF : FallbackState) (stI : IDBState),
      doc.stock = .arr l → doc.sales = .missing →
      importJSONF doc stF = .ok ⟨l, []⟩ ∧
      ∃ st', importJSONI doc stI = .ok st' ∧
        st'.stock = l.foldl idbPutStock [] ∧ st'.sales = []) := by
  refine ⟨?_, ?_, ?_⟩
  · intro doc stF stI h
    rcases h with h | h <;>
      simp [importJSONF, importJSONI, importJSONFRun, importJSONIRun, h]
  · intro l ls doc stF stI hstock hsales
    refine ⟨by simp [importJSONF, hstock, hsales], ?_⟩
    have h1 : importJSONI doc stI = .ok
        (addAllSales ⟨l.foldl idbPutStock [], [], stI.nextKey⟩ ls) := by
      simp only [importJSONI, hstock, hsales]
    refine ⟨_, h1, ?_, ?_⟩
    · rw [addAllSales_stock]
    · rw [addAllSales_vals]
      simp
  · intro l doc stF stI hstock hsales
    have h1 : importJSONI doc stI = .ok ⟨l.foldl idbPutStock [], [], stI.nextKey⟩ := by
      simp only [importJSONI, hstock, hsales]
    exact ⟨by simp [importJSONF, hstock, hsales], _, h1, rfl, rfl⟩

/-- Witness for C6: a document without a usable stock field is rejected with
both ledgers kept; an array-shaped document replaces them. -/
theorem importBackup_replace_witness :
    (importJSONF ⟨.nonList, .missing⟩ ⟨[⟨"A", 1, 1, 1⟩], []⟩ = .error .invalidStock ∧
      importJSONFRun ⟨.nonList, .missing⟩ ⟨[⟨"A", 1, 1, 1⟩], []⟩ = ⟨[⟨"A", 1, 1, 1⟩], []⟩ ∧
      importJSONI ⟨.nonList, .missing⟩ ⟨[⟨"A", 1, 1, 1⟩], [], 1⟩ = .error .invalidStock ∧
      importJSONIRun ⟨.nonList, .missing⟩ ⟨[⟨"A", 1, 1, 1⟩], [], 1⟩ = ⟨[⟨"A", 1, 1, 1⟩], [], 1⟩) ∧
    (importJSONF ⟨.arr [⟨"B", 2, 3, 4⟩], .missing⟩ ⟨[⟨"A", 1, 1, 1⟩], []⟩ =
        .ok ⟨[⟨"B", 2, 3, 4⟩], []⟩ ∧
      ∃ st', importJSONI ⟨.arr [⟨"B", 2, 3, 4⟩], .missing⟩ ⟨[⟨"A", 1, 1, 1⟩], [], 1⟩ = .ok st' ∧
        st'.stock = [⟨"B", 2, 3, 4⟩].foldl idbPutStock [] ∧ st'.sales = []) :=
  ⟨importBackup_replace.1 ⟨.nonList, .missing⟩ ⟨[⟨"A", 1, 1, 1⟩], []⟩ ⟨[⟨"A", 1, 1, 1⟩], [], 1⟩
      (Or.inr rfl),
   importBackup_replace.2.2 [⟨"B", 2, 3, 4⟩] ⟨.arr [⟨"B", 2, 3, 4⟩], .missing⟩
      ⟨[⟨"A", 1, 1, 1⟩], []⟩ ⟨[⟨"A", 1, 1, 1⟩], [], 1⟩ rfl rfl⟩

theorem countP_isSome_add_isNone {α β : Type} (f : α → Option β) (l : List α) :
    l.countP (fun a => (f a).isSome) + l.countP (fun a => (f a).isNone) = l.length := by
  induction l with
  | nil => rfl
  | cons a rest ih =>
    cases hf : f a <;> simp [List.countP_cons, hf] <;> omega

attribute [local semireducible] Rat.mul Rat.add Rat.sub Rat.inv in
/-- Counterexample for C7, refuting the claim at two concrete inputs.
First, a payload whose only data row fails to parse (non-numeric quantity)
makes `importCSVData` abort the whole import with an error instead of
reporting imported=0, skipped=1.  Second, in the durable backend a payload
with two valid rows of the same name does not follow the additive-quantity
upsert rule: both rows' gets read the pre-import (empty) store, the second
put overwrites the first, and the final quantity is 1, not 2. -/
theorem importStock_abort_cex :
    (parseRow (headerCols "item,qty,cost,sell".data) "foo,x,1,1".data = none ∧
      importCSVF "item,qty,cost,sell\nfoo,x,1,1" ⟨[], []⟩ = .error .noValidData ∧
      importCSVI "item,qty,cost,sell\nfoo,x,1,1" ⟨[], [], 1⟩ = .error .noValidData) ∧
    importCSVI "item,qty,cost,sell\nA,1,2,3\nA,1,2,3" ⟨[], [], 1⟩ =
      .ok (2, 0, ⟨[⟨"A", 1, 2, 3⟩], [], 1⟩) :=
  ⟨⟨rfl, rfl, rfl⟩, by rfl⟩

/-- C7 (amended): for every delimited payload with at least one parsable
data row, the import never aborts: every failing row is skipped and counted,
and the reported counts are exactly the number of parsable and unparsable
rows, which together exhaust the non-blank data rows.  Each valid row is
applied in order by the additive-quantity / overwrite-prices upsert rule in
the fallback backend; in the durable backend each valid row's merge is
instead computed against the pre-import stock (the transaction runs every
get before any put) and the puts then apply in row order, so duplicate-name
rows within one payload overwrite rather than accumulate.  (When no row
parses, the import aborts with an error — see the counterexample.) -/
theorem importStock_skip_and_merge :
    ∀ (csv : String) (header : List Char) (rows : List (List Char))
      (stF : FallbackState) (stI : IDBState),
      csvLines csv = header :: rows →
      0 < rows.countP (fun r => (parseRow (headerCols header) r).isSome) →
      importCSVF csv stF = .ok
        (rows.countP (fun r => (parseRow (headerCols header) r).isSome),
         rows.countP (fun r => (parseRow (headerCols header) r).isNone),
         ⟨(rows.filterMap (parseRow (headerCols header))).foldl upsertStock stF.stockData,
          stF.salesData⟩) ∧
      importCSVI csv stI = .ok
        (rows.countP (fun r => (parseRow (headerCols header) r).isSome),
         rows.countP (fun r => (parseRow (headerCols header) r).isNone),
         ⟨((rows.filterMap (parseRow (headerCols header))).map
             (csvMergedRow stI.stock)).foldl idbPutStock stI.stock,
          stI.sales, stI.nextKey⟩) ∧
      rows.countP (fun r => (parseRow (headerCols header) r).isSome) +
        rows.countP (fun r => (parseRow (headerCols header) r).isNone) = rows.length := by
  intro csv header rows stF stI hlines hpos
  obtain ⟨r0, hr0mem, hr0⟩ := List.countP_pos_iff.mp hpos
  cases rows with
  | nil => simp at hpos
  | cons r rs =>
    have hcore : importCSVCore csv = .ok
        ((r :: rs).countP (fun x => (parseRow (headerCols header) x).isSome),
         (r :: rs).countP (fun x => (parseRow (headerCols header) x).isNone),
         (r :: rs).filterMap (parseRow (headerCols header))) := by
      simp only [importCSVCore, hlines]
      rw [foldl_processRow]
      have hne : (r :: rs).filterMap (parseRow (headerCols header)) ≠ [] := by
        obtain ⟨it, hit⟩ := Option.isSome_iff_exists.mp hr0
        intro hemp
        have hm : it ∈ (r :: rs).filterMap (parseRow (headerCols header)) :=
          List.mem_filterMap.mpr ⟨r0, hr0mem, hit⟩
        rw [hemp] at hm
        simp at hm
      simp [hne]
    exact ⟨by simp only [importCSVF, hcore], by simp only [importCSVI, hcore],
      countP_isSome_add_isNone _ _⟩

attribute [local semireducible] Rat.mul Rat.add Rat.sub Rat.inv in
/-- Witness for C7: three data rows, one missing a column — imported=2,
skipped=1, and the two valid rows land in stock. -/
theorem importStock_skip_and_merge_witness :
    importCSVF "name,qty,cost,sell\nA,3,2,5\nB,4,1\nC,2,7,9" ⟨[], []⟩ = .ok
      (["A,3,2,5".data, "B,4,1".data, "C,2,7,9".data].countP
        (fun r => (parseRow (headerCols "name,qty,cost,sell".data) r).isSome),
       ["A,3,2,5".data, "B,4,1".data, "C,2,7,9".data].countP
        (fun r => (parseRow (headerCols "name,qty,cost,sell".data) r).isNone),
       ⟨(["A,3,2,5".data, "B,4,1".data, "C,2,7,9".data].filterMap
          (parseRow (headerCols "name,qty,cost,sell".data))).foldl upsertStock [],
        []⟩) ∧
    importCSVI "name,qty,cost,sell\nA,3,2,5\nB,4,1\nC,2,7,9" ⟨[], [], 1⟩ = .ok
      (["A,3,2,5".data, "B,4,1".data, "C,2,7,9".data].countP
        (fun r => (parseRow (headerCols "name,qty,cost,sell".data) r).isSome),
       ["A,3,2,5".data, "B,4,1".data, "C,2,7,9".data].countP
        (fun r => (parseRow (headerCols "name,qty,cost,sell".data) r).isNone),
       ⟨((["A,3,2,5".data, "B,4,1".data, "C,2,7,9".data].filterMap
           (parseRow (headerCols "name,qty,cost,sell".data))).map
          (csvMergedRow [])).foldl idbPutStock [],
        [], 1⟩) ∧
    ["A,3,2,5".data, "B,4,1".data, "C,2,7,9".data].countP
      (fun r => (parseRow (headerCols "name,qty,cost,sell".data) r).isSome) +
    ["A,3,2,5".data, "B,4,1".data, "C,2,7,9".data].countP
      (fun r => (parseRow (headerCols "name,qty,cost,sell".data) r).isNone) = 3 :=
  importStock_skip_and_merge "name,qty,cost,sell\nA,3,2,5\nB,4,1\nC,2,7,9"
    "name,qty,cost,sell".data ["A,3,2,5".data, "B,4,1".data, "C,2,7,9".data]
    ⟨[], []⟩ ⟨[], [], 1⟩ (by rfl) (by decide)

attribute [local semireducible] Rat.mul Rat.add Rat.sub Rat.inv in
/-- C10: a delimited row whose qty and cost parse positive but whose sell
price parses to zero is counted as imported and applied, producing a stock
item whose sell price is not positive — the import path does not enforce the
`sell > 0` constraint of the stock data model. -/
theorem importStock_sell_nonpositive :
    importCSVF "item,qty,cost,sell\nWidget,5,10,0" ⟨[], []⟩ =
      .ok (1, 0, ⟨[⟨"Widget", 5, 10, 0⟩], []⟩) ∧
    ¬(0 < (⟨"Widget", 5, 10, 0⟩ : StockItem).sell) :=
  ⟨by rfl, by decide⟩
